import Mathlib

/-!
Verification of the convnetjs core (dense 3D tensors, convolution,
max-pooling and fully-connected layers, the network orchestrator and the
gradient-descent trainer).

Numeric model: JavaScript numbers are modelled by the exact rationals.
Square roots (Math.sqrt in the optimizer) are modelled by an abstract
function parameter, since both the code and the specification apply it to
the same argument.  Loops that accumulate into a scalar are translated as
folds over the same index ranges, in the same iteration order.
-/

namespace Convnet

/-! ## Tensor (convnet_vol.js)

Vol is a 3D volume of numbers with width sx, height sy, depth, a value
buffer w and a gradient buffer dw, both flat of length sx*sy*depth,
indexed by ix = ((sx * y) + x) * depth + d. -/

structure Vol where
  sx : Nat
  sy : Nat
  depth : Nat
  w : List ℚ
  dw : List ℚ
deriving DecidableEq

instance : Inhabited Vol := ⟨⟨0, 0, 0, [], []⟩⟩

/-- Value accessor, from the source: get(x,y,d) reads w at
((sx * y) + x) * depth + d.  Out-of-range reads (which the layer code
always guards against) are modelled as 0. -/
def Vol.get (V : Vol) (x y d : Nat) : ℚ :=
  V.w.getD (((V.sx * y) + x) * V.depth + d) 0

/-- Helper used to model a loop nest that stores one value per output
coordinate through Vol.set: the volume whose entry at flat index
((sx * y) + x) * depth + d is f x y d. -/
def volOfFn (sx sy depth : Nat) (f : Nat → Nat → Nat → ℚ) : Vol :=
  ⟨sx, sy, depth,
    (List.range (sx * sy * depth)).map
      (fun i => f ((i / depth) % sx) ((i / depth) / sx) (i % depth)),
    List.replicate (sx * sy * depth) 0⟩

/-! ## Vol JSON serialization (convnet_vol.js toJSON / fromJSON) -/

/-- Serialized form of a Vol: toJSON exports sx, sy, depth and w only;
gradients are not backed up. -/
structure VolJSON where
  sx : Nat
  sy : Nat
  depth : Nat
  w : List ℚ
deriving DecidableEq

def Vol.toJSON (V : Vol) : VolJSON := ⟨V.sx, V.sy, V.depth, V.w⟩

/-- Deserialization: restores the dimensions, reallocates w and dw as
zero buffers of length n = sx*sy*depth and copies w[i] = json.w[i] for
i < n.  An out-of-range read from json.w (excluded by the Vol length
invariant) is modelled as 0. -/
def Vol.fromJSON (json : VolJSON) : Vol :=
  let n := json.sx * json.sy * json.depth
  ⟨json.sx, json.sy, json.depth,
    (List.range n).map (fun i => json.w.getD i 0),
    List.replicate n 0⟩

/-! ## Convolution layer (convnet_layers_dotproducts.js) -/

structure ConvLayer where
  out_depth : Nat
  sx : Nat
  sy : Nat
  in_depth : Nat
  in_sx : Nat
  in_sy : Nat
  stride : Nat
  pad : Nat
  l1_decay_mul : ℚ
  l2_decay_mul : ℚ
  filters : List Vol
  biases : Vol
deriving DecidableEq

/-- Computed output dimension of the convolution layer, from the source:
Math.floor((in_sx + pad * 2 - sx) / stride + 1). -/
def convOutDim (inS pad fS stride : Nat) : Int :=
  Int.floor (((inS : ℚ) + (pad : ℚ) * 2 - (fS : ℚ)) / (stride : ℚ) + 1)

def ConvLayer.out_sx (L : ConvLayer) : Int := convOutDim L.in_sx L.pad L.sx L.stride

def ConvLayer.out_sy (L : ConvLayer) : Int := convOutDim L.in_sy L.pad L.sy L.stride

/-- Body of the convolution forward loop nest for one output coordinate
(ax, ay, d).  In the source the top-left input coordinate is maintained
incrementally (x starts at -pad and advances by stride per ax step), so
x = ax*stride - pad and y = ay*stride - pad.  The filter loops run fy
over the filter height, fx over the filter width, and the depth loop fd
runs only when (ox, oy) is inside the input extent. -/
def ConvLayer.forwardCell (L : ConvLayer) (V : Vol) (ax ay d : Nat) : ℚ :=
  let f := L.filters.getD d default
  let x : Int := (ax : Int) * (L.stride : Int) - (L.pad : Int)
  let y : Int := (ay : Int) * (L.stride : Int) - (L.pad : Int)
  let a : ℚ :=
    (List.range f.sy).foldl (fun (a : ℚ) (fy : Nat) =>
      let oy : Int := y + (fy : Int)
      (List.range f.sx).foldl (fun (a : ℚ) (fx : Nat) =>
        let ox : Int := x + (fx : Int)
        if 0 ≤ oy ∧ oy < (V.sy : Int) ∧ 0 ≤ ox ∧ ox < (V.sx : Int) then
          (List.range f.depth).foldl (fun (a : ℚ) (fd : Nat) =>
            a + f.w.getD (((f.sx * fy) + fx) * f.depth + fd) 0 *
                V.w.getD (((V.sx * oy.toNat) + ox.toNat) * V.depth + fd) 0) a
        else a) a) 0
  a + L.biases.w.getD d 0

/-- Convolution forward pass: builds the output volume A of dimensions
(out_sx, out_sy, out_depth), storing forwardCell at every coordinate.
The source loop nest runs d, ay, ax and calls A.set(ax, ay, d, a)
exactly once per output coordinate, with A initialized to 0.0. -/
def ConvLayer.forward (L : ConvLayer) (V : Vol) : Vol :=
  volOfFn (L.out_sx).toNat (L.out_sy).toNat L.out_depth (L.forwardCell V)

/-! ## Max-pooling layer (convnet_layers_pool.js) -/

structure PoolLayer where
  sx : Nat
  sy : Nat
  in_depth : Nat
  in_sx : Nat
  in_sy : Nat
  stride : Nat
  pad : Nat
deriving DecidableEq

def PoolLayer.out_depth (P : PoolLayer) : Nat := P.in_depth

/-- Computed output dimension of the pooling layer, from the source:
Math.floor((in_sx + pad * 2 - sx) / stride + 1). -/
def poolOutDim (inS pad fS stride : Nat) : Int :=
  Int.floor (((inS : ℚ) + (pad : ℚ) * 2 - (fS : ℚ)) / (stride : ℚ) + 1)

def PoolLayer.out_sx (P : PoolLayer) : Int := poolOutDim P.in_sx P.pad P.sx P.stride

def PoolLayer.out_sy (P : PoolLayer) : Int := poolOutDim P.in_sy P.pad P.sy P.stride

/-- Window coordinate pairs (fx, fy) of the pooling filter in the scan
order of the source loops: fx is the outer loop, fy the inner loop. -/
def poolPairs (sx sy : Nat) : List (Nat × Nat) :=
  (List.range sx).flatMap (fun fx => (List.range sy).map (fun fy => (fx, fy)))

/-- Body of the pooling forward loop nest for one output coordinate:
scans the window, tracking the strictly greatest value seen starting
from the sentinel a = -99999 and winning coordinates winx = winy = -1.
Returns (a, winx, winy); the source stores winx and winy into switchx
and switchy at the running output counter and a into the output. -/
def PoolLayer.poolCell (P : PoolLayer) (V : Vol) (x y : Int) (d : Nat) : ℚ × Int × Int :=
  (List.range P.sx).foldl (fun (s : ℚ × Int × Int) (fx : Nat) =>
    (List.range P.sy).foldl (fun (s : ℚ × Int × Int) (fy : Nat) =>
      let oy : Int := y + (fy : Int)
      let ox : Int := x + (fx : Int)
      if 0 ≤ oy ∧ oy < (V.sy : Int) ∧ 0 ≤ ox ∧ ox < (V.sx : Int) then
        let v := V.get ox.toNat oy.toNat d
        if v > s.1 then (v, ox, oy) else s
      else s) s) (-99999, -1, -1)

/-- The in-range window of one pooling cell, in scan order, each
coordinate (ox, oy) paired with the input value there. -/
def poolWindow (P : PoolLayer) (V : Vol) (x y : Int) (d : Nat) : List ((Int × Int) × ℚ) :=
  ((poolPairs P.sx P.sy).filter (fun c =>
      decide (0 ≤ y + (c.2 : Int) ∧ y + (c.2 : Int) < (V.sy : Int) ∧
              0 ≤ x + (c.1 : Int) ∧ x + (c.1 : Int) < (V.sx : Int)))).map
    (fun c => ((x + (c.1 : Int), y + (c.2 : Int)),
               V.get (x + (c.1 : Int)).toNat (y + (c.2 : Int)).toNat d))

/-- Pooling forward pass: the output volume, whose entry at (ax, ay, d)
is the maximum tracked by poolCell with x = ax*stride - pad and
y = ay*stride - pad (x and y are maintained incrementally in the
source). -/
def PoolLayer.forward (P : PoolLayer) (V : Vol) : Vol :=
  volOfFn (P.out_sx).toNat (P.out_sy).toNat P.out_depth (fun ax ay d =>
    (P.poolCell V ((ax : Int) * (P.stride : Int) - (P.pad : Int))
                  ((ay : Int) * (P.stride : Int) - (P.pad : Int)) d).1)

/-- Output cells (d, ax, ay) of the pooling layer in the order of the
source loop nest (d outer, then ax, then ay); the running switch counter
n of the source equals the position in this list, namely
((d * out_sx) + ax) * out_sy + ay. -/
def poolCells (od osx osy : Nat) : List (Nat × Nat × Nat) :=
  (List.range od).flatMap (fun d =>
    (List.range osx).flatMap (fun ax =>
      (List.range osy).map (fun ay => (d, ax, ay))))

/-- Flat gradient-buffer index written by the pooling backward pass for
the output cell c = (d, ax, ay): V.add_grad(switchx[n], switchy[n], d)
writes at ((V.sx * switchy[n]) + switchx[n]) * V.depth + d, where n is
the switch counter of the cell. -/
def poolWriteIx (P : PoolLayer) (V : Vol) (swx swy : List Int) (c : Nat × Nat × Nat) : Int :=
  let n := ((c.1 * (P.out_sx).toNat) + c.2.1) * (P.out_sy).toNat + c.2.2
  ((V.sx : Int) * swy.getD n (-1) + swx.getD n (-1)) * (V.depth : Int) + (c.1 : Int)

/-- Chain gradient read by the pooling backward pass for the output cell
c = (d, ax, ay): out_act.get_grad(ax, ay, d) on the output volume of
dimensions (out_sx, out_sy, out_depth). -/
def poolChain (P : PoolLayer) (outDw : List ℚ) (c : Nat × Nat × Nat) : ℚ :=
  outDw.getD ((((P.out_sx).toNat * c.2.2) + c.2.1) * P.out_depth + c.1) 0

/-- Pooling backward pass: the input gradient buffer is zeroed
(global.zeros(V.w.length)), then for each output cell the chain gradient
is added at the recorded switch coordinate and the same depth.  A write
whose flat index falls outside the buffer is dropped, as a typed-array
write at an out-of-range index is in JavaScript. -/
def PoolLayer.backwardDw (P : PoolLayer) (V : Vol) (outDw : List ℚ)
    (swx swy : List Int) : List ℚ :=
  (poolCells P.out_depth (P.out_sx).toNat (P.out_sy).toNat).foldl
    (fun dw c =>
      if 0 ≤ poolWriteIx P V swx swy c ∧ poolWriteIx P V swx swy c < (dw.length : Int) then
        dw.set (poolWriteIx P V swx swy c).toNat
          (dw.getD (poolWriteIx P V swx swy c).toNat 0 + poolChain P outDw c)
      else dw)
    (List.replicate V.w.length 0)

/-! ## Fully-connected layer (convnet_layers_dotproducts.js) -/

structure FullyConnLayer where
  out_depth : Nat
  l1_decay_mul : ℚ
  l2_decay_mul : ℚ
  num_inputs : Nat
  filters : List Vol
  biases : Vol
deriving DecidableEq

/-! ## Parameter groups (getParamsAndGrads) -/

/-- One parameter group as handed to the trainer.  The decay multipliers
are optional because the trainer checks for their presence and falls
back to 1.0; the layers of this repository always supply them. -/
structure ParamGroup where
  params : List ℚ
  grads : List ℚ
  l1_decay_mul : Option ℚ
  l2_decay_mul : Option ℚ
deriving DecidableEq

instance : Inhabited ParamGroup := ⟨⟨[], [], none, none⟩⟩

/-- ConvLayer.getParamsAndGrads: one group per filter carrying the
decay multipliers of the layer, then the bias group with both multipliers
fixed to 0.0. -/
def ConvLayer.getParamsAndGrads (L : ConvLayer) : List ParamGroup :=
  (List.range L.out_depth).map (fun i =>
    ⟨(L.filters.getD i default).w, (L.filters.getD i default).dw,
      some L.l1_decay_mul, some L.l2_decay_mul⟩)
  ++ [⟨L.biases.w, L.biases.dw, some 0, some 0⟩]

/-- FullyConnLayer.getParamsAndGrads: one group per filter carrying the
decay multipliers of the layer, then the bias group with both multipliers
fixed to 0.0. -/
def FullyConnLayer.getParamsAndGrads (F : FullyConnLayer) : List ParamGroup :=
  (List.range F.out_depth).map (fun i =>
    ⟨(F.filters.getD i default).w, (F.filters.getD i default).dw,
      some F.l1_decay_mul, some F.l2_decay_mul⟩)
  ++ [⟨F.biases.w, F.biases.dw, some 0, some 0⟩]

/-! ## Trainer (convnet_trainers.js) -/

/-- Trainer configuration, with the fields of the Trainer constructor.
Defaults in the source: learning_rate 0.01, l1_decay 0, l2_decay 0,
batch_size 1, method sgd, momentum 0.9, ro 0.95, eps 1e-6. -/
structure TrainerCfg where
  learning_rate : ℚ
  l1_decay : ℚ
  l2_decay : ℚ
  batch_size : Nat
  method : String
  momentum : ℚ
  ro : ℚ
  eps : ℚ
deriving DecidableEq

/-- State threaded through the per-weight update loop of Trainer.train:
the parameter buffer p, gradient buffer g, the accumulators gsum and
xsum of the current group, and the running decay losses. -/
structure WeightState where
  p : List ℚ
  g : List ℚ
  gsum : List ℚ
  xsum : List ℚ
  l2loss : ℚ
  l1loss : ℚ
deriving DecidableEq

/-- One iteration j of the inner weight loop of Trainer.train
(src part_002 lines 118-164).  The decay rates l1d and l2d are the
trainer rates already scaled by the group multipliers.  Math.sqrt is
the abstract parameter sq.  Every branch ends by zeroing g[j]. -/
def trainerWeightStep (sq : ℚ → ℚ) (cfg : TrainerCfg) (l1d l2d : ℚ)
    (st : WeightState) (j : Nat) : WeightState :=
  let pj := st.p.getD j 0
  let gj := st.g.getD j 0
  let l2loss := st.l2loss + l2d * pj * pj / 2
  let l1loss := st.l1loss + l1d * |pj|
  let l1grad := l1d * (if pj > 0 then 1 else -1)
  let l2grad := l2d * pj
  let gij := (l2grad + l1grad + gj) / (cfg.batch_size : ℚ)
  let gsumj := st.gsum.getD j 0
  let xsumj := st.xsum.getD j 0
  if cfg.method = "adagrad" then
    let gs := gsumj + gij * gij
    ⟨st.p.set j (pj + (- cfg.learning_rate) / sq (gs + cfg.eps) * gij),
      st.g.set j 0, st.gsum.set j gs, st.xsum, l2loss, l1loss⟩
  else if cfg.method = "windowgrad" then
    let gs := cfg.ro * gsumj + (1 - cfg.ro) * gij * gij
    ⟨st.p.set j (pj + (- cfg.learning_rate) / sq (gs + cfg.eps) * gij),
      st.g.set j 0, st.gsum.set j gs, st.xsum, l2loss, l1loss⟩
  else if cfg.method = "adadelta" then
    let gs := cfg.ro * gsumj + (1 - cfg.ro) * gij * gij
    let dx := - sq ((xsumj + cfg.eps) / (gs + cfg.eps)) * gij
    ⟨st.p.set j (pj + dx), st.g.set j 0, st.gsum.set j gs,
      st.xsum.set j (cfg.ro * xsumj + (1 - cfg.ro) * dx * dx), l2loss, l1loss⟩
  else if cfg.method = "nesterov" then
    let gs := gsumj * cfg.momentum + cfg.learning_rate * gij
    let dx := cfg.momentum * gsumj - (1 + cfg.momentum) * gs
    ⟨st.p.set j (pj + dx), st.g.set j 0, st.gsum.set j gs, st.xsum, l2loss, l1loss⟩
  else
    if cfg.momentum > 0 then
      let dx := cfg.momentum * gsumj - cfg.learning_rate * gij
      ⟨st.p.set j (pj + dx), st.g.set j 0, st.gsum.set j dx, st.xsum, l2loss, l1loss⟩
    else
      ⟨st.p.set j (pj + (- (cfg.learning_rate * gij))), st.g.set j 0,
        st.gsum, st.xsum, l2loss, l1loss⟩

/-- Modelled from the spec (section 4.6): the five parameter update
rules, applied to one weight p with decayed gradient gp and accumulator
values gsum and xsum; returns the new (p, gsum, xsum).  This is the
specification-side definition against which the code update is
compared. -/
def specUpdateRule (sq : ℚ → ℚ) (cfg : TrainerCfg) (p gsum xsum gp : ℚ) : ℚ × ℚ × ℚ :=
  if cfg.method = "adagrad" then
    let gs := gsum + gp * gp
    (p + (- cfg.learning_rate) / sq (gs + cfg.eps) * gp, gs, xsum)
  else if cfg.method = "windowgrad" then
    let gs := cfg.ro * gsum + (1 - cfg.ro) * gp * gp
    (p + (- cfg.learning_rate) / sq (gs + cfg.eps) * gp, gs, xsum)
  else if cfg.method = "adadelta" then
    let gs := cfg.ro * gsum + (1 - cfg.ro) * gp * gp
    let dx := - sq ((xsum + cfg.eps) / (gs + cfg.eps)) * gp
    (p + dx, gs, cfg.ro * xsum + (1 - cfg.ro) * dx * dx)
  else if cfg.method = "nesterov" then
    let gs := gsum * cfg.momentum + cfg.learning_rate * gp
    (p + (cfg.momentum * gsum - (1 + cfg.momentum) * gs), gs, xsum)
  else
    if cfg.momentum > 0 then
      let dx := cfg.momentum * gsum - cfg.learning_rate * gp
      (p + dx, dx, xsum)
    else
      (p + (- (cfg.learning_rate * gp)), gsum, xsum)

/-- Modelled from the spec: the mathematical sign function, sign(0) = 0,
as used in the claimed decayed-gradient formula. -/
def specSign (p : ℚ) : ℚ := if 0 < p then 1 else if p < 0 then -1 else 0

/-- Modelled from the spec: the claimed decayed gradient
(l2_decay*p + l1_decay*sign(p) + g) / batch_size, with the mathematical
sign function. -/
def specDecayedGrad (l1d l2d : ℚ) (batch : Nat) (p g : ℚ) : ℚ :=
  (l2d * p + l1d * specSign p + g) / (batch : ℚ)

/-- One iteration i of the group loop of Trainer.train: resolves the
group decay multipliers (falling back to 1.0 when absent) and runs the
weight loop over all indices of the parameter buffer of the group. -/
def trainerGroupStep (sq : ℚ → ℚ) (cfg : TrainerCfg) (pg : ParamGroup)
    (gsumi xsumi : List ℚ) (l2loss l1loss : ℚ) : WeightState :=
  let l2dm := pg.l2_decay_mul.getD 1
  let l1dm := pg.l1_decay_mul.getD 1
  (List.range pg.params.length).foldl
    (trainerWeightStep sq cfg (cfg.l1_decay * l1dm) (cfg.l2_decay * l2dm))
    ⟨pg.params, pg.grads, gsumi, xsumi, l2loss, l1loss⟩

/-- Trainer state: iteration counter k and the accumulator lists gsum
and xsum (lazily allocated). -/
structure TrainerState where
  cfg : TrainerCfg
  k : Nat
  gsum : List (List ℚ)
  xsum : List (List ℚ)
deriving DecidableEq

/-- Update phase of Trainer.train, entered when the incremented counter
is a multiple of batch_size: lazily allocates the accumulators when
gsum is still empty and the method needs them (any method other than
sgd, or sgd with positive momentum; xsum buffers are allocated only for
adadelta, empty lists otherwise), then updates every parameter group in
order.  Returns the new state, the updated groups and the accumulated
(l2_decay_loss, l1_decay_loss). -/
def trainerUpdate (sq : ℚ → ℚ) (T : TrainerState) (pglist : List ParamGroup) :
    TrainerState × List ParamGroup × ℚ × ℚ :=
  let alloc := T.gsum.length = 0 ∧ (T.cfg.method ≠ "sgd" ∨ T.cfg.momentum > 0)
  let gsum0 := if alloc then
      pglist.map (fun pg => List.replicate pg.params.length (0 : ℚ)) else T.gsum
  let xsum0 := if alloc then
      pglist.map (fun pg =>
        if T.cfg.method = "adadelta" then List.replicate pg.params.length (0 : ℚ)
        else ([] : List ℚ))
    else T.xsum
  let r := (List.range pglist.length).foldl
    (fun acc i =>
      match acc with
      | (pgl, gs, xs, l2l, l1l) =>
        let pg := pgl.getD i default
        let w := trainerGroupStep sq T.cfg pg (gs.getD i []) (xs.getD i []) l2l l1l
        (pgl.set i ⟨w.p, w.g, pg.l1_decay_mul, pg.l2_decay_mul⟩,
         gs.set i w.gsum, xs.set i w.xsum, w.l2loss, w.l1loss))
    (pglist, gsum0, xsum0, (0 : ℚ), (0 : ℚ))
  match r with
  | (pgl, gs, xs, l2l, l1l) => (⟨T.cfg, T.k + 1, gs, xs⟩, pgl, l2l, l1l)

/-- Trainer.train, restricted to its parameter-update state machine
(the forward and backward passes belong to the network): increments the
counter and performs the update only when the new counter is a multiple
of batch_size; otherwise nothing is touched and both decay losses are
returned as the zeros they were initialized to. -/
def trainerTrainStep (sq : ℚ → ℚ) (T : TrainerState) (pglist : List ParamGroup) :
    TrainerState × List ParamGroup × ℚ × ℚ :=
  if (T.k + 1) % T.cfg.batch_size = 0 then trainerUpdate sq T pglist
  else (⟨T.cfg, T.k + 1, T.gsum, T.xsum⟩, pglist, 0, 0)

/-! ## Network (convnet_net.js) -/

/-- View of one constructed layer as Net.getPrediction consumes it: its
layer_type tag and its stored output activation volume. -/
structure NetLayer where
  layer_type : String
  out_act : Vol
deriving DecidableEq

instance : Inhabited NetLayer := ⟨⟨"", default⟩⟩

/-- Net.getPrediction: asserts that the last layer is softmax-typed
(modelled as an error result, since assert throws), then scans the
output activations from index 1 with a strict comparison against the
running maximum initialized to w[0], returning the winning index. -/
def getPrediction (layers : List NetLayer) : Except String Nat :=
  let S := layers.getD (layers.length - 1) default
  if S.layer_type = "softmax" then
    let p := S.out_act.w
    let r := (List.range' 1 (p.length - 1)).foldl
      (fun (s : ℚ × Nat) (i : Nat) => if p.getD i 0 > s.1 then (p.getD i 0, i) else s)
      (p.getD 0 0, 0)
    Except.ok r.2
  else Except.error "getPrediction function assumes softmax as last layer of the net!"

/-- Layer definition record as consumed by Net.makeLayers; optional
fields model the is-it-defined checks of the source. -/
structure LayerDef where
  type : String
  num_classes : Option Nat
  num_neurons : Option Nat
  bias_pref : Option ℚ
  activation : Option String
  group_size : Option Nat
  drop_prob : Option ℚ
deriving DecidableEq

instance : Inhabited LayerDef := ⟨⟨"", none, none, none, none, none, none⟩⟩

/-- Layer definition carrying only a type tag. -/
def defOfType (t : String) : LayerDef := ⟨t, none, none, none, none, none, none⟩

/-- The desugar step of Net.makeLayers: inserts an fc definition before
softmax/svm (sized by num_classes) and regression (sized by
num_neurons), defaults bias_pref for fc/conv definitions (0.1 with relu
activation, 0.0 otherwise), appends the activation layer definition
named by the activation field (logging an error and appending nothing
for an unsupported value), and appends a dropout definition when
drop_prob is present on a non-dropout definition.  Returns the expanded
definitions and the console error log. -/
def desugar (defs : List LayerDef) : List LayerDef × List String :=
  defs.foldl
    (fun acc d0 =>
      let pre : List LayerDef :=
        (if d0.type = "softmax" ∨ d0.type = "svm" then
          [⟨"fc", none, d0.num_classes, none, none, none, none⟩] else [])
        ++ (if d0.type = "regression" then
          [⟨"fc", none, d0.num_neurons, none, none, none, none⟩] else [])
      let d1 :=
        if (d0.type = "fc" ∨ d0.type = "conv") ∧ d0.bias_pref = none then
          ⟨d0.type, d0.num_classes, d0.num_neurons,
            some (if d0.activation = some "relu" then (1 : ℚ)/10 else 0),
            d0.activation, d0.group_size, d0.drop_prob⟩
        else d0
      let actPart : List LayerDef × List String :=
        match d1.activation with
        | none => ([], [])
        | some act =>
          if act = "relu" then ([defOfType "relu"], [])
          else if act = "sigmoid" then ([defOfType "sigmoid"], [])
          else if act = "tanh" then ([defOfType "tanh"], [])
          else if act = "maxout" then
            ([⟨"maxout", none, none, none, none, d1.group_size, none⟩], [])
          else ([], ["ERROR unsupported activation " ++ act])
      let post2 : List LayerDef :=
        if d1.drop_prob ≠ none ∧ d1.type ≠ "dropout" then
          [⟨"dropout", none, none, none, none, none, d1.drop_prob⟩] else []
      (acc.1 ++ pre ++ [d1] ++ actPart.1 ++ post2, acc.2 ++ actPart.2))
    ([], [])

/-- Recognized layer type tags of the construction switch in
Net.makeLayers. -/
def recognizedTypes : List String :=
  ["fc", "lrn", "dropout", "input", "softmax", "regression", "conv", "pool",
   "relu", "sigmoid", "tanh", "maxout", "svm"]

/-- The construction loop of Net.makeLayers.  Each iteration i over the
desugared definitions first performs the shape wiring when i > 0: it
reads this.layers[i-1] and dereferences its out_sx/out_sy/out_depth.
Because the default branch of the switch pushes nothing, a previously
skipped unrecognized definition leaves the layers list shorter than i,
the read yields undefined and the dereference throws a TypeError,
aborting construction (modelled as an error result).  Otherwise a
recognized type tag constructs a layer (modelled by its tag: the
constructors do not fail, and the wired shape values do not influence
this control flow, so they are not tracked), while the default branch
only logs an error and constructs nothing. -/
def constructLoop : List LayerDef → Nat → List String → List String →
    Except String (List String × List String)
  | [], _, ls, log => Except.ok (ls, log)
  | d :: rest, i, ls, log =>
    if 0 < i ∧ ¬ (i - 1 < ls.length) then
      Except.error "TypeError: Cannot read properties of undefined (reading out_sx)"
    else if d.type ∈ recognizedTypes then
      constructLoop rest (i + 1) (ls ++ [d.type]) log
    else
      constructLoop rest (i + 1) ls
        (log ++ ["ERROR: UNRECOGNIZED LAYER TYPE: " ++ d.type])

/-- The construction phase of Net.makeLayers, started at index 0 with
an empty layers list. -/
def constructLayers (defs : List LayerDef) : Except String (List String × List String) :=
  constructLoop defs 0 [] []

/-- Net.makeLayers: the two asserts abort construction (modelled as an
error result, since assert throws); desugaring always completes, while
the construction loop can further abort with a TypeError after a
skipped unrecognized definition.  On success the constructed layer tags
and the accumulated console error log are returned (desugar is pure, so
writing it twice below is the single source evaluation). -/
def makeLayers (defs : List LayerDef) : Except String (List String × List String) :=
  if ¬ (defs.length ≥ 2) then
    Except.error "Error! At least one input layer and one loss layer are required."
  else if ¬ ((defs.getD 0 default).type = "input") then
    Except.error "Error! First layer must be the input layer, to declare size of inputs"
  else
    match constructLayers (desugar defs).1 with
    | Except.error e => Except.error e
    | Except.ok r => Except.ok (r.1, (desugar defs).2 ++ r.2)

/-! ## Claim statements (specification side) -/

/-- Claimed value of the convolution output at (ax, ay, d): the bias,
plus the sum over all filter coordinates whose mapped input coordinate
(ox, oy) = (ax*stride - pad + fx, ay*stride - pad + fy) lies inside the
input extent of the depth-wise products filter.w[fy,fx,fd] *
input.w[oy,ox,fd]; out-of-range coordinates contribute zero. -/
def ConvForwardFormula (L : ConvLayer) (V : Vol) (ax ay d : Nat) : Prop :=
  (L.forward V).get ax ay d =
    L.biases.w.getD d 0 +
      (Finset.range (L.filters.getD d default).sy).sum (fun fy =>
        (Finset.range (L.filters.getD d default).sx).sum (fun fx =>
          if 0 ≤ (ay : Int) * (L.stride : Int) - (L.pad : Int) + (fy : Int) ∧
             (ay : Int) * (L.stride : Int) - (L.pad : Int) + (fy : Int) < (V.sy : Int) ∧
             0 ≤ (ax : Int) * (L.stride : Int) - (L.pad : Int) + (fx : Int) ∧
             (ax : Int) * (L.stride : Int) - (L.pad : Int) + (fx : Int) < (V.sx : Int) then
            (Finset.range L.in_depth).sum (fun fd =>
              (L.filters.getD d default).get fx fy fd *
                V.get ((ax : Int) * (L.stride : Int) - (L.pad : Int) + (fx : Int)).toNat
                      ((ay : Int) * (L.stride : Int) - (L.pad : Int) + (fy : Int)).toNat fd)
          else 0))

/-- Claimed behaviour of one max-pooling cell: every in-range window
value is bounded by the returned maximum, and the window splits around
the returned switch coordinate, whose value is that maximum, with every
earlier-scanned in-range value strictly below it (so ties keep the
first-scanned coordinate). -/
def PoolCellSpec (P : PoolLayer) (V : Vol) (x y : Int) (d : Nat) : Prop :=
  (∀ c ∈ poolWindow P V x y d, c.2 ≤ (P.poolCell V x y d).1) ∧
  ∃ W1 W2,
    poolWindow P V x y d =
      W1 ++ (((P.poolCell V x y d).2.1, (P.poolCell V x y d).2.2),
             (P.poolCell V x y d).1) :: W2 ∧
    ∀ c ∈ W1, c.2 < (P.poolCell V x y d).1

/-- Claimed value of the pooling input gradient at the input coordinate
(x, y, dd) after backward: the sum of the chain gradients of exactly
those output cells whose recorded switch coordinate and depth are
(x, y, dd); in particular an input cell recorded by no output cell ends
with gradient zero. -/
def PoolBackwardFormula (P : PoolLayer) (V : Vol) (outDw : List ℚ)
    (swx swy : List Int) (x y dd : Nat) : Prop :=
  (P.backwardDw V outDw swx swy).getD (((V.sx * y) + x) * V.depth + dd) 0 =
    (Finset.range P.out_depth).sum (fun d =>
      (Finset.range (P.out_sx).toNat).sum (fun ax =>
        (Finset.range (P.out_sy).toNat).sum (fun ay =>
          if swx.getD (((d * (P.out_sx).toNat) + ax) * (P.out_sy).toNat + ay) (-1) = (x : Int) ∧
             swy.getD (((d * (P.out_sx).toNat) + ax) * (P.out_sy).toNat + ay) (-1) = (y : Int) ∧
             d = dd then
            poolChain P outDw (d, ax, ay)
          else 0)))

/-- Claimed behaviour of getPrediction on a softmax-terminated network:
it returns the index of the maximal output activation of the last
layer, and every strictly smaller index holds a strictly smaller value
(the first index wins ties). -/
def PredictionSpec (layers : List NetLayer) : Prop :=
  let w := (layers.getD (layers.length - 1) default).out_act.w
  ∃ i, getPrediction layers = Except.ok i ∧ i < w.length ∧
    (∀ j, j < w.length → w.getD j 0 ≤ w.getD i 0) ∧
    (∀ j, j < i → w.getD j 0 < w.getD i 0)

/-! ## Concrete fixtures for witnesses and counterexamples -/

/-- Convolution fixture: one 1x1x1 filter with weight 2, bias 5. -/
def convW : ConvLayer :=
  ⟨1, 1, 1, 1, 1, 1, 1, 0, 0, 1, [⟨1, 1, 1, [2], [0]⟩], ⟨1, 1, 1, [5], [0]⟩⟩

/-- Input fixture for the convolution witness: a 1x1x1 volume holding 3. -/
def convWV : Vol := ⟨1, 1, 1, [3], [0]⟩

/-- Pooling fixture with a 1x1 window over a 1x1x1 input, stride 1. -/
def poolW : PoolLayer := ⟨1, 1, 1, 1, 1, 1, 0⟩

/-- Input fixture for the pooling witness: value 7. -/
def poolWV : Vol := ⟨1, 1, 1, [7], [0]⟩

/-- Input fixture for the pooling counterexample: value -100000, below
the -99999 sentinel the forward scan starts from. -/
def poolCV : Vol := ⟨1, 1, 1, [-100000], [0]⟩

/-- Pooling fixture for the backward witness: 2x1 window over a 2x1x1
input, stride 2, one output cell. -/
def poolB : PoolLayer := ⟨2, 1, 1, 2, 1, 2, 0⟩

/-- Input fixture for the pooling backward witness. -/
def poolBV : Vol := ⟨2, 1, 1, [0, 0], [0, 0]⟩

/-- Switch x-coordinates fixture for the pooling backward witness: the
single output cell recorded the input at x = 1. -/
def swxB : List Int := [1]

/-- Switch y-coordinates fixture for the pooling backward witness. -/
def swyB : List Int := [0]

/-- Upstream gradient fixture for the pooling backward witness. -/
def outDwB : List ℚ := [5]

/-- Fully-connected fixture for the bias-group witness. -/
def fcW : FullyConnLayer :=
  ⟨1, 0, 1, 1, [⟨1, 1, 1, [2], [0]⟩], ⟨1, 1, 1, [5], [0]⟩⟩

/-- Trainer fixture for the decayed-gradient counterexample: vanilla
sgd, learning rate 1/10, l1_decay 1, l2_decay 0, batch size 1. -/
def cfgC5 : TrainerCfg := ⟨1/10, 1, 0, 1, "sgd", 0, 95/100, 1/1000000⟩

/-- Weight-state fixture with a single weight p = 0 and gradient 0. -/
def stC5 : WeightState := ⟨[0], [0], [], [], 0, 0⟩

/-- Trainer fixture for the frame-property witness: batch size 2. -/
def cfgC7 : TrainerCfg := ⟨1/100, 0, 0, 2, "sgd", 9/10, 95/100, 1/1000000⟩

/-- Trainer-state fixture at counter k = 0. -/
def tsC7 : TrainerState := ⟨cfgC7, 0, [], []⟩

/-- Parameter-group fixture for the frame-property witness. -/
def pgC7 : List ParamGroup := [⟨[1], [2], some 0, some 0⟩]

/-- Network fixture for the prediction witness: a softmax last layer
with activations 1, 3, 2. -/
def netW : List NetLayer := [⟨"softmax", ⟨1, 1, 3, [1, 3, 2], [0, 0, 0]⟩⟩]

/-- Tensor fixture for the serialization witness. -/
def volJ : Vol := ⟨1, 1, 2, [3, 4], [9, 9]⟩

/-- Layer definitions with an unsupported activation value on the fc
layer: construction succeeds, only logging the error. -/
def defsBadAct : List LayerDef :=
  [defOfType "input", ⟨"fc", none, some 2, none, some "bogus", none, none⟩]

/-- Layer definitions with an unrecognized layer type tag in final
position: construction completes, only logging the error, because no
later iteration reads the missing layer. -/
def defsBadType : List LayerDef := [defOfType "input", defOfType "bogus"]

/-- Layer definitions with an unrecognized layer type tag followed by a
further definition: the iteration after the skipped tag reads the
missing layers entry and construction aborts with a TypeError. -/
def defsBadTypeMid : List LayerDef :=
  [defOfType "input", defOfType "bogus",
   ⟨"softmax", some 2, none, none, none, none, none⟩]

/-- Running strict-maximum scan shared by the pooling forward pass and
getPrediction: folds over (tag, value) pairs, replacing the state only
on a strictly greater value. -/
def runMax {α : Type} (init : ℚ × α) (l : List (α × ℚ)) : ℚ × α :=
  l.foldl (fun s c => if c.2 > s.1 then (c.2, c.1) else s) init

/-! ## General lemmas on folds, sums and flat indices -/

theorem list_sum_range (n : Nat) (f : Nat → ℚ) :
    ((List.range n).map f).sum = (Finset.range n).sum f := by
  induction n with
  | zero => simp
  | succ m ih =>
    rw [List.range_succ, Finset.sum_range_succ, List.map_append, List.sum_append]
    simp [ih]

theorem foldl_add {α : Type} (h : α → ℚ) (l : List α) (init : ℚ) :
    l.foldl (fun a x => a + h x) init = init + (l.map h).sum := by
  induction l generalizing init with
  | nil => simp
  | cons c t ih => simp [ih (init + h c), add_assoc]

theorem foldl_add_ite {α : Type} (p : α → Prop) [DecidablePred p] (h : α → ℚ)
    (l : List α) (init : ℚ) :
    l.foldl (fun a x => if p x then a + h x else a) init
      = init + (l.map (fun x => if p x then h x else 0)).sum := by
  induction l generalizing init with
  | nil => simp
  | cons c t ih =>
    by_cases hc : p c
    · simp only [List.foldl_cons, List.map_cons, List.sum_cons, if_pos hc]
      rw [ih (init + h c)]
      ring
    · simp only [List.foldl_cons, List.map_cons, List.sum_cons, if_neg hc]
      rw [ih init]
      ring

theorem idx_lt {x a y b d c : Nat} (hx : x < a) (hy : y < b) (hd : d < c) :
    ((a * y) + x) * c + d < a * b * c := by
  have h1 : (a * y) + x + 1 ≤ a * b := by
    have h2 : a * (y + 1) ≤ a * b := Nat.mul_le_mul_left a (Nat.succ_le_of_lt hy)
    have h3 : a * (y + 1) = a * y + a := by ring
    omega
  calc ((a * y) + x) * c + d < ((a * y) + x) * c + c := by omega
    _ = ((a * y) + x + 1) * c := by ring
    _ ≤ (a * b) * c := Nat.mul_le_mul_right c h1
    _ = a * b * c := rfl

theorem idx_decode {sx depth x d : Nat} (y : Nat) (hx : x < sx) (hd : d < depth) :
    ((((sx * y) + x) * depth + d) / depth) % sx = x ∧
    (((sx * y) + x) * depth + d) / depth / sx = y ∧
    (((sx * y) + x) * depth + d) % depth = d := by
  have hdpos : 0 < depth := by omega
  have hspos : 0 < sx := by omega
  have e1 : ((sx * y) + x) * depth + d = d + ((sx * y) + x) * depth := by ring
  have h2 : (((sx * y) + x) * depth + d) / depth = (sx * y) + x := by
    rw [e1, Nat.add_mul_div_right _ _ hdpos, Nat.div_eq_of_lt hd]
    omega
  have h3 : (((sx * y) + x) * depth + d) % depth = d := by
    rw [e1, Nat.add_mul_mod_self_right, Nat.mod_eq_of_lt hd]
  have e2 : (sx * y) + x = x + y * sx := by ring
  refine ⟨?_, ?_, h3⟩
  · rw [h2, e2, Nat.add_mul_mod_self_right, Nat.mod_eq_of_lt hx]
  · rw [h2, e2, Nat.add_mul_div_right _ _ hspos, Nat.div_eq_of_lt hx]
    omega

theorem volOfFn_get (sx sy depth : Nat) (f : Nat → Nat → Nat → ℚ) (x y d : Nat)
    (hx : x < sx) (hy : y < sy) (hd : d < depth) :
    (volOfFn sx sy depth f).get x y d = f x y d := by
  have hix : ((sx * y) + x) * depth + d < sx * sy * depth := idx_lt hx hy hd
  obtain ⟨e1, e2, e3⟩ := idx_decode y hx hd
  unfold volOfFn Vol.get
  rw [List.getD_eq_getElem _ _ (by simpa using hix)]
  rw [List.getElem_map, List.getElem_range, e1, e2, e3]

theorem triple_fold_sum (m k n : Nat) (g : Nat → Nat → Prop)
    [inst : ∀ fy fx, Decidable (g fy fx)] (t : Nat → Nat → Nat → ℚ) :
    (List.range m).foldl (fun (a : ℚ) (fy : Nat) =>
      (List.range k).foldl (fun (a : ℚ) (fx : Nat) =>
        if g fy fx then
          (List.range n).foldl (fun (a : ℚ) (fd : Nat) => a + t fy fx fd) a
        else a) a) 0
    = (Finset.range m).sum (fun fy => (Finset.range k).sum (fun fx =>
        if g fy fx then (Finset.range n).sum (t fy fx) else 0)) := by
  have hdep : ∀ (fy fx : Nat) (a : ℚ),
      (List.range n).foldl (fun (a : ℚ) (fd : Nat) => a + t fy fx fd) a
        = a + (Finset.range n).sum (t fy fx) := by
    intro fy fx a
    rw [foldl_add, list_sum_range]
  have hmid : ∀ (fy : Nat) (a : ℚ),
      (List.range k).foldl (fun (a : ℚ) (fx : Nat) =>
        if g fy fx then
          (List.range n).foldl (fun (a : ℚ) (fd : Nat) => a + t fy fx fd) a
        else a) a
        = a + (Finset.range k).sum (fun fx =>
            if g fy fx then (Finset.range n).sum (t fy fx) else 0) := by
    intro fy a
    rw [List.foldl_ext _ (fun (a : ℚ) (fx : Nat) =>
        if g fy fx then a + (Finset.range n).sum (t fy fx) else a)
        a (by
          intro a2 fx _
          by_cases hg : g fy fx
          · simp only [if_pos hg, hdep]
          · simp only [if_neg hg])]
    rw [foldl_add_ite, list_sum_range]
  rw [List.foldl_ext _ (fun (a : ℚ) (fy : Nat) =>
      a + (Finset.range k).sum (fun fx =>
        if g fy fx then (Finset.range n).sum (t fy fx) else 0))
      0 (by intro a fy _; rw [hmid])]
  rw [foldl_add, list_sum_range, zero_add]

/-! ## C1: convolution forward -/

/-- C1.  Convolution forward: for every input tensor and every output
coordinate (ax, ay, d), the stored output value equals bias[d] plus the
sum, over all filter coordinates (fx, fy) whose mapped input coordinate
(ox, oy) = (ax*stride - pad + fx, ay*stride - pad + fy) lies inside the
spatial extent of the input, of the sum over fd below in_depth of
filter.w[fy,fx,fd] * input.w[oy,ox,fd]; out-of-range (ox, oy)
contributes exactly zero.  The filter-depth hypothesis records that the
filter at output depth d has depth in_depth, as the constructor
guarantees. -/
theorem conv_forward_formula (L : ConvLayer) (V : Vol) (ax ay d : Nat)
    (hax : ax < (L.out_sx).toNat) (hay : ay < (L.out_sy).toNat)
    (hd : d < L.out_depth)
    (hf : (L.filters.getD d default).depth = L.in_depth) :
    ConvForwardFormula L V ax ay d := by
  unfold ConvForwardFormula ConvLayer.forward
  rw [volOfFn_get _ _ _ _ _ _ _ hax hay hd]
  rw [← hf]
  simp only [ConvLayer.forwardCell]
  rw [triple_fold_sum (L.filters.getD d default).sy (L.filters.getD d default).sx
      (L.filters.getD d default).depth
      (fun fy fx =>
        0 ≤ (ay : Int) * (L.stride : Int) - (L.pad : Int) + (fy : Int) ∧
        (ay : Int) * (L.stride : Int) - (L.pad : Int) + (fy : Int) < (V.sy : Int) ∧
        0 ≤ (ax : Int) * (L.stride : Int) - (L.pad : Int) + (fx : Int) ∧
        (ax : Int) * (L.stride : Int) - (L.pad : Int) + (fx : Int) < (V.sx : Int))
      (fun fy fx fd =>
        (L.filters.getD d default).w.getD
          ((((L.filters.getD d default).sx * fy) + fx) *
            (L.filters.getD d default).depth + fd) 0 *
        V.w.getD (((V.sx * ((ay : Int) * (L.stride : Int) - (L.pad : Int) + (fy : Int)).toNat) +
            ((ax : Int) * (L.stride : Int) - (L.pad : Int) + (fx : Int)).toNat) * V.depth + fd) 0)]
  simp only [Vol.get]
  rw [add_comm]

/-! ## C2: max-pooling forward -/

theorem foldl_flatMap {α β γ : Type} (l : List α) (g : α → List β)
    (f : γ → β → γ) (init : γ) :
    (l.flatMap g).foldl f init = l.foldl (fun s a => (g a).foldl f s) init := by
  induction l generalizing init with
  | nil => rfl
  | cons c t ih => simp [List.flatMap_cons, List.foldl_append, ih]

theorem foldl_guard_filter_map {α β γ : Type} (p : α → Prop) [DecidablePred p]
    (h : α → β) (f : γ → β → γ) (l : List α) (init : γ) :
    l.foldl (fun s c => if p c then f s (h c) else s) init
      = ((l.filter (fun c => decide (p c))).map h).foldl f init := by
  induction l generalizing init with
  | nil => rfl
  | cons c t ih =>
    by_cases hc : p c <;> simp [List.filter_cons, hc, ih]

theorem runMax_spec {α : Type} (l : List (α × ℚ)) (init : ℚ × α) :
    init.1 ≤ (runMax init l).1 ∧
    (∀ c ∈ l, c.2 ≤ (runMax init l).1) ∧
    ((runMax init l = init ∧ ∀ c ∈ l, c.2 ≤ init.1) ∨
      (∃ l1 l2, l = l1 ++ ((runMax init l).2, (runMax init l).1) :: l2 ∧
        init.1 < (runMax init l).1 ∧ ∀ c ∈ l1, c.2 < (runMax init l).1)) := by
  induction l generalizing init with
  | nil => simp [runMax]
  | cons c t ih =>
    by_cases hc : c.2 > init.1
    · have hstep : runMax init (c :: t) = runMax (c.2, c.1) t := by
        simp [runMax, hc]
      obtain ⟨ih1, ih2, ih3⟩ := ih (c.2, c.1)
      rw [hstep]
      refine ⟨le_trans (le_of_lt hc) ih1, ?_, ?_⟩
      · intro c2 hc2
        rcases List.mem_cons.mp hc2 with h | h
        · rw [h]; exact ih1
        · exact ih2 c2 h
      · rcases ih3 with ⟨heq, hall⟩ | ⟨l1, l2, hsplit, hlt, hall⟩
        · right
          refine ⟨[], t, ?_, ?_, ?_⟩
          · simp [heq]
          · rw [heq]; exact hc
          · simp
        · right
          refine ⟨c :: l1, l2, ?_, lt_trans hc hlt, ?_⟩
          · rw [List.cons_append, ← hsplit]
          · intro c2 hc2
            rcases List.mem_cons.mp hc2 with h | h
            · rw [h]; exact hlt
            · exact hall c2 h
    · have hstep : runMax init (c :: t) = runMax init t := by
        simp [runMax, hc]
      push_neg at hc
      obtain ⟨ih1, ih2, ih3⟩ := ih init
      rw [hstep]
      refine ⟨ih1, ?_, ?_⟩
      · intro c2 hc2
        rcases List.mem_cons.mp hc2 with h | h
        · rw [h]; exact le_trans hc ih1
        · exact ih2 c2 h
      · rcases ih3 with ⟨heq, hall⟩ | ⟨l1, l2, hsplit, hlt, hall⟩
        · left
          refine ⟨heq, ?_⟩
          intro c2 hc2
          rcases List.mem_cons.mp hc2 with h | h
          · rw [h]; exact hc
          · exact hall c2 h
        · right
          refine ⟨c :: l1, l2, ?_, hlt, ?_⟩
          · rw [List.cons_append, ← hsplit]
          · intro c2 hc2
            rcases List.mem_cons.mp hc2 with h | h
            · rw [h]; exact lt_of_le_of_lt hc hlt
            · exact hall c2 h

theorem poolCell_eq_runMax (P : PoolLayer) (V : Vol) (x y : Int) (d : Nat) :
    P.poolCell V x y d = runMax (-99999, (-1, -1)) (poolWindow P V x y d) := by
  unfold poolWindow runMax
  rw [← foldl_guard_filter_map
      (fun c : Nat × Nat =>
        0 ≤ y + (c.2 : Int) ∧ y + (c.2 : Int) < (V.sy : Int) ∧
        0 ≤ x + (c.1 : Int) ∧ x + (c.1 : Int) < (V.sx : Int))
      (fun c : Nat × Nat =>
        ((x + (c.1 : Int), y + (c.2 : Int)),
          V.get (x + (c.1 : Int)).toNat (y + (c.2 : Int)).toNat d))
      (fun (s : ℚ × Int × Int) (cc : (Int × Int) × ℚ) =>
        if cc.2 > s.1 then (cc.2, cc.1) else s)]
  unfold poolPairs
  rw [foldl_flatMap]
  unfold PoolLayer.poolCell
  rw [List.foldl_ext _ (fun (s : ℚ × Int × Int) (fx : Nat) =>
      (List.range P.sy).foldl (fun (s : ℚ × Int × Int) (fy : Nat) =>
        if 0 ≤ y + (fy : Int) ∧ y + (fy : Int) < (V.sy : Int) ∧
           0 ≤ x + (fx : Int) ∧ x + (fx : Int) < (V.sx : Int) then
          if V.get (x + (fx : Int)).toNat (y + (fy : Int)).toNat d > s.1 then
            (V.get (x + (fx : Int)).toNat (y + (fy : Int)).toNat d,
              (x + (fx : Int), y + (fy : Int)))
          else s
        else s) s)
      (-99999, -1, -1) (by intro s fx _; rfl)]
  rw [List.foldl_ext _ (fun (s : ℚ × Int × Int) (fx : Nat) =>
      ((List.range P.sy).map (fun fy => ((fx, fy) : Nat × Nat))).foldl
        (fun (s : ℚ × Int × Int) (c : Nat × Nat) =>
          if 0 ≤ y + (c.2 : Int) ∧ y + (c.2 : Int) < (V.sy : Int) ∧
             0 ≤ x + (c.1 : Int) ∧ x + (c.1 : Int) < (V.sx : Int) then
            if V.get (x + (c.1 : Int)).toNat (y + (c.2 : Int)).toNat d > s.1 then
              (V.get (x + (c.1 : Int)).toNat (y + (c.2 : Int)).toNat d,
                (x + (c.1 : Int), y + (c.2 : Int)))
            else s
          else s) s)
      (-99999, -1, -1) (by intro s fx _; simp only [List.foldl_map])]

/-- C2 as amended.  Max-pooling forward, for every output cell whose
window holds at least one in-range value strictly above the -99999
sentinel: the stored output value is the true maximum over the in-range
window values, and the switch coordinate produced by the scan is the
first-scanned coordinate attaining that maximum (every earlier-scanned
in-range value is strictly smaller; the comparison is strict).  The
window quantities are taken at x = ax*stride - pad, y = ay*stride - pad
as maintained by the source loops. -/
theorem pool_forward_max (P : PoolLayer) (V : Vol) (ax ay d : Nat)
    (hax : ax < (P.out_sx).toNat) (hay : ay < (P.out_sy).toNat)
    (hd : d < P.out_depth)
    (hex : ∃ c ∈ poolWindow P V ((ax : Int) * (P.stride : Int) - (P.pad : Int))
        ((ay : Int) * (P.stride : Int) - (P.pad : Int)) d, (-99999 : ℚ) < c.2) :
    (P.forward V).get ax ay d =
      (P.poolCell V ((ax : Int) * (P.stride : Int) - (P.pad : Int))
        ((ay : Int) * (P.stride : Int) - (P.pad : Int)) d).1 ∧
    PoolCellSpec P V ((ax : Int) * (P.stride : Int) - (P.pad : Int))
      ((ay : Int) * (P.stride : Int) - (P.pad : Int)) d := by
  constructor
  · unfold PoolLayer.forward
    rw [volOfFn_get _ _ _ _ _ _ _ hax hay hd]
  · unfold PoolCellSpec
    have hb := poolCell_eq_runMax P V
      ((ax : Int) * (P.stride : Int) - (P.pad : Int))
      ((ay : Int) * (P.stride : Int) - (P.pad : Int)) d
    obtain ⟨h1, h2, h3⟩ := runMax_spec
      (poolWindow P V ((ax : Int) * (P.stride : Int) - (P.pad : Int))
        ((ay : Int) * (P.stride : Int) - (P.pad : Int)) d)
      (-99999, (-1, -1))
    rcases h3 with ⟨heq, hall⟩ | ⟨l1, l2, hsplit, hlt, hall⟩
    · exfalso
      obtain ⟨c, hcmem, hcgt⟩ := hex
      exact absurd (hall c hcmem) (not_le.mpr hcgt)
    · constructor
      · intro c hc
        rw [hb]
        exact h2 c hc
      · refine ⟨l1, l2, ?_, ?_⟩
        · rw [hb]
          simpa using hsplit
        · intro c hc
          rw [hb]
          exact hall c hc

/-- Witness for C1 at a concrete 1x1 convolution. -/
theorem conv_forward_formula_witness :
    0 < (convW.out_sx).toNat ∧ 0 < (convW.out_sy).toNat ∧ 0 < convW.out_depth ∧
    (convW.filters.getD 0 default).depth = convW.in_depth ∧
    ConvForwardFormula convW convWV 0 0 0 := by
  have h1 : 0 < (convW.out_sx).toNat := by
    norm_num [convW, ConvLayer.out_sx, convOutDim]
  have h2 : 0 < (convW.out_sy).toNat := by
    norm_num [convW, ConvLayer.out_sy, convOutDim]
  have h3 : 0 < convW.out_depth := by norm_num [convW]
  have h4 : (convW.filters.getD 0 default).depth = convW.in_depth := rfl
  exact ⟨h1, h2, h3, h4, conv_forward_formula convW convWV 0 0 0 h1 h2 h3 h4⟩

/-- Counterexample for C2 as frozen: with the single in-range window
value -100000 (below the -99999 sentinel the scan starts from), the
stored output is -99999, which is not among the window values at all,
so it is not the true window maximum (-100000), and the recorded switch
coordinate stays at the impossible (-1, -1). -/
theorem pool_forward_counterexample :
    (poolW.poolCell poolCV 0 0 0).1 = -99999 ∧
    poolWindow poolW poolCV 0 0 0 = [((0, 0), -100000)] ∧
    (poolW.poolCell poolCV 0 0 0).1 ∉ (poolWindow poolW poolCV 0 0 0).map Prod.snd ∧
    (poolW.poolCell poolCV 0 0 0).2 = (-1, -1) := by
  refine ⟨?_, ?_, ?_, ?_⟩
  · norm_num [PoolLayer.poolCell, poolW, poolCV, Vol.get, List.range_succ]
  · norm_num [poolWindow, poolPairs, poolW, poolCV, Vol.get, List.range_succ]
  · norm_num [PoolLayer.poolCell, poolWindow, poolPairs, poolW, poolCV, Vol.get,
      List.range_succ]
  · norm_num [PoolLayer.poolCell, poolW, poolCV, Vol.get, List.range_succ]

/-- Witness for the amended C2 at a concrete 1x1 pooling window holding
the value 7. -/
theorem pool_forward_max_witness :
    (0 < (poolW.out_sx).toNat ∧ 0 < (poolW.out_sy).toNat ∧ 0 < poolW.out_depth ∧
      (∃ c ∈ poolWindow poolW poolWV
          (((0 : Nat) : Int) * (poolW.stride : Int) - (poolW.pad : Int))
          (((0 : Nat) : Int) * (poolW.stride : Int) - (poolW.pad : Int)) 0,
        (-99999 : ℚ) < c.2)) ∧
    ((poolW.forward poolWV).get 0 0 0 =
      (poolW.poolCell poolWV
        (((0 : Nat) : Int) * (poolW.stride : Int) - (poolW.pad : Int))
        (((0 : Nat) : Int) * (poolW.stride : Int) - (poolW.pad : Int)) 0).1 ∧
     PoolCellSpec poolW poolWV
        (((0 : Nat) : Int) * (poolW.stride : Int) - (poolW.pad : Int))
        (((0 : Nat) : Int) * (poolW.stride : Int) - (poolW.pad : Int)) 0) := by
  have h1 : 0 < (poolW.out_sx).toNat := by
    norm_num [poolW, PoolLayer.out_sx, poolOutDim]
  have h2 : 0 < (poolW.out_sy).toNat := by
    norm_num [poolW, PoolLayer.out_sy, poolOutDim]
  have h3 : 0 < poolW.out_depth := by norm_num [poolW, PoolLayer.out_depth]
  have hex : ∃ c ∈ poolWindow poolW poolWV
      (((0 : Nat) : Int) * (poolW.stride : Int) - (poolW.pad : Int))
      (((0 : Nat) : Int) * (poolW.stride : Int) - (poolW.pad : Int)) 0,
      (-99999 : ℚ) < c.2 := by
    refine ⟨((0, 0), 7), ?_, by norm_num⟩
    norm_num [poolWindow, poolPairs, poolW, poolWV, Vol.get, List.range_succ]
  exact ⟨⟨h1, h2, h3, hex⟩, pool_forward_max poolW poolWV 0 0 0 h1 h2 h3 hex⟩

/-! ## C3: max-pooling backward -/

theorem getD_set_self (l : List ℚ) (i : Nat) (v : ℚ) (h : i < l.length) :
    (l.set i v).getD i 0 = v := by
  simp [List.getD_eq_getElem?_getD, List.getElem?_set_self, h]

theorem getD_set_ne (l : List ℚ) (i j : Nat) (v : ℚ) (h : i ≠ j) :
    (l.set i v).getD j 0 = l.getD j 0 := by
  simp [List.getD_eq_getElem?_getD, List.getElem?_set_ne h]

theorem foldl_scatter_getD {γ : Type} (f : γ → Int) (g : γ → ℚ) (l : List γ)
    (dw : List ℚ) (j : Nat) (hj : j < dw.length) :
    (l.foldl (fun dw c =>
        if 0 ≤ f c ∧ f c < (dw.length : Int) then
          dw.set (f c).toNat (dw.getD (f c).toNat 0 + g c)
        else dw) dw).getD j 0
      = dw.getD j 0 + (l.map (fun c => if f c = (j : Int) then g c else 0)).sum := by
  induction l generalizing dw with
  | nil => simp
  | cons c t ih =>
    simp only [List.foldl_cons, List.map_cons, List.sum_cons]
    by_cases hc : 0 ≤ f c ∧ f c < (dw.length : Int)
    · rw [if_pos hc]
      have hlen : (dw.set (f c).toNat (dw.getD (f c).toNat 0 + g c)).length = dw.length :=
        List.length_set dw _ _
      have hj2 : j < (dw.set (f c).toNat (dw.getD (f c).toNat 0 + g c)).length := by omega
      rw [ih _ hj2]
      by_cases hfc : f c = (j : Int)
      · have htn : (f c).toNat = j := by omega
        rw [if_pos hfc, htn, getD_set_self dw j _ hj]
        ring
      · have htn : (f c).toNat ≠ j := by omega
        rw [if_neg hfc, getD_set_ne dw _ j _ htn]
        ring
    · rw [if_neg hc]
      have hfc : ¬ (f c = (j : Int)) := by
        intro h
        apply hc
        constructor <;> omega
      rw [if_neg hfc, ih dw hj]
      ring

theorem sum_map_flatMap {α β : Type} (l : List α) (g : α → List β) (F : β → ℚ) :
    ((l.flatMap g).map F).sum = (l.map (fun a => ((g a).map F).sum)).sum := by
  induction l with
  | nil => rfl
  | cons c t ih => simp [List.flatMap_cons, ih]

theorem sum_poolCells (od m k : Nat) (F : Nat × Nat × Nat → ℚ) :
    ((poolCells od m k).map F).sum
      = (Finset.range od).sum (fun d => (Finset.range m).sum (fun ax =>
          (Finset.range k).sum (fun ay => F (d, ax, ay)))) := by
  unfold poolCells
  simp only [sum_map_flatMap, List.map_map, Function.comp, list_sum_range]

theorem idx_inj {a c x1 x2 d1 d2 : Nat} (y1 y2 : Nat)
    (hx1 : x1 < a) (hx2 : x2 < a) (hd1 : d1 < c) (hd2 : d2 < c) :
    ((a * y1) + x1) * c + d1 = ((a * y2) + x2) * c + d2 ↔
      (x1 = x2 ∧ y1 = y2 ∧ d1 = d2) := by
  constructor
  · intro h
    obtain ⟨e1a, e2a, e3a⟩ := idx_decode y1 hx1 hd1
    obtain ⟨e1b, e2b, e3b⟩ := idx_decode y2 hx2 hd2
    refine ⟨?_, ?_, ?_⟩
    · rw [← e1a, ← e1b, h]
    · rw [← e2a, ← e2b, h]
    · rw [← e3a, ← e3b, h]
  · rintro ⟨rfl, rfl, rfl⟩
    rfl

/-- C3.  Max-pooling backward: the input gradient buffer starts zeroed,
and each output cell adds its chain gradient at the switch coordinate
(switchx[n], switchy[n]) and its own depth, so the final input gradient
at any input coordinate is the sum of the chain gradients of exactly
the output cells that recorded it; every input cell that no output cell
recorded ends with gradient zero.  The switch hypothesis records that
the stored coordinates are in range, as a forward pass over nonempty
windows produces them. -/
theorem pool_backward_routes (P : PoolLayer) (V : Vol) (outDw : List ℚ)
    (swx swy : List Int) (x y dd : Nat)
    (hx : x < V.sx) (hy : y < V.sy) (hdd : dd < V.depth)
    (hdep : P.out_depth = V.depth)
    (hlen : V.w.length = V.sx * V.sy * V.depth)
    (hsw : ∀ n, n < P.out_depth * (P.out_sx).toNat * (P.out_sy).toNat →
        0 ≤ swx.getD n (-1) ∧ swx.getD n (-1) < (V.sx : Int) ∧
        0 ≤ swy.getD n (-1) ∧ swy.getD n (-1) < (V.sy : Int)) :
    PoolBackwardFormula P V outDw swx swy x y dd := by
  unfold PoolBackwardFormula PoolLayer.backwardDw
  have hj : ((V.sx * y) + x) * V.depth + dd < (List.replicate V.w.length (0 : ℚ)).length := by
    rw [List.length_replicate, hlen]
    exact idx_lt hx hy hdd
  rw [foldl_scatter_getD (poolWriteIx P V swx swy) (poolChain P outDw) _ _ _ hj]
  have hz : (List.replicate V.w.length (0 : ℚ)).getD (((V.sx * y) + x) * V.depth + dd) 0 = 0 := by
    simp only [List.getD_eq_getElem?_getD, List.getElem?_replicate]
    split <;> rfl
  rw [hz, zero_add]
  rw [sum_poolCells P.out_depth (P.out_sx).toNat (P.out_sy).toNat
      (fun c => if poolWriteIx P V swx swy c = ((((V.sx * y) + x) * V.depth + dd : Nat) : Int)
        then poolChain P outDw c else 0)]
  apply Finset.sum_congr rfl
  intro d0 hd0
  apply Finset.sum_congr rfl
  intro ax hax
  apply Finset.sum_congr rfl
  intro ay hay
  have hd0b : d0 < P.out_depth := Finset.mem_range.mp hd0
  have haxb : ax < (P.out_sx).toNat := Finset.mem_range.mp hax
  have hayb : ay < (P.out_sy).toNat := Finset.mem_range.mp hay
  have hn : ((d0 * (P.out_sx).toNat) + ax) * (P.out_sy).toNat + ay <
      P.out_depth * (P.out_sx).toNat * (P.out_sy).toNat := by
    have h1 := idx_lt haxb hd0b hayb
    have e1 : (((P.out_sx).toNat * d0) + ax) * (P.out_sy).toNat
        = ((d0 * (P.out_sx).toNat) + ax) * (P.out_sy).toNat := by ring
    have e2 : (P.out_sx).toNat * P.out_depth * (P.out_sy).toNat =
        P.out_depth * (P.out_sx).toNat * (P.out_sy).toNat := by ring
    omega
  obtain ⟨hswx0, hswx1, hswy0, hswy1⟩ :=
    hsw (((d0 * (P.out_sx).toNat) + ax) * (P.out_sy).toNat + ay) hn
  have hcond : (poolWriteIx P V swx swy (d0, ax, ay) =
      ((((V.sx * y) + x) * V.depth + dd : Nat) : Int)) ↔
      (swx.getD (((d0 * (P.out_sx).toNat) + ax) * (P.out_sy).toNat + ay) (-1) = (x : Int) ∧
       swy.getD (((d0 * (P.out_sx).toNat) + ax) * (P.out_sy).toNat + ay) (-1) = (y : Int) ∧
       d0 = dd) := by
    simp only [poolWriteIx]
    obtain ⟨sxn, hsxn⟩ : ∃ sxn : Nat,
        swx.getD (((d0 * (P.out_sx).toNat) + ax) * (P.out_sy).toNat + ay) (-1) = (sxn : Int) :=
      ⟨(swx.getD (((d0 * (P.out_sx).toNat) + ax) * (P.out_sy).toNat + ay) (-1)).toNat, by omega⟩
    obtain ⟨syn, hsyn⟩ : ∃ syn : Nat,
        swy.getD (((d0 * (P.out_sx).toNat) + ax) * (P.out_sy).toNat + ay) (-1) = (syn : Int) :=
      ⟨(swy.getD (((d0 * (P.out_sx).toNat) + ax) * (P.out_sy).toNat + ay) (-1)).toNat, by omega⟩
    rw [hsxn, hsyn]
    have hsxb : sxn < V.sx := by omega
    have hsyb : syn < V.sy := by omega
    have hd0V : d0 < V.depth := by omega
    constructor
    · intro h
      have h2 : ((V.sx * syn) + sxn) * V.depth + d0 = ((V.sx * y) + x) * V.depth + dd := by
        exact_mod_cast h
      obtain ⟨e1, e2, e3⟩ := (idx_inj syn y hsxb hx hd0V hdd).mp h2
      exact ⟨by exact_mod_cast e1, by exact_mod_cast e2, e3⟩
    · rintro ⟨h1, h2, h3⟩
      have e1 : sxn = x := by exact_mod_cast h1
      have e2 : syn = y := by exact_mod_cast h2
      subst e1
      subst e2
      subst h3
      push_cast
      ring
  rw [if_congr hcond rfl rfl]

/-- Witness for C3 at a concrete 2x1 pooling window whose single output
cell recorded the input cell (1, 0). -/
theorem pool_backward_routes_witness :
    (1 < poolBV.sx ∧ 0 < poolBV.sy ∧ 0 < poolBV.depth ∧
      poolB.out_depth = poolBV.depth ∧
      poolBV.w.length = poolBV.sx * poolBV.sy * poolBV.depth ∧
      (∀ n, n < poolB.out_depth * (poolB.out_sx).toNat * (poolB.out_sy).toNat →
        0 ≤ swxB.getD n (-1) ∧ swxB.getD n (-1) < (poolBV.sx : Int) ∧
        0 ≤ swyB.getD n (-1) ∧ swyB.getD n (-1) < (poolBV.sy : Int))) ∧
    PoolBackwardFormula poolB poolBV outDwB swxB swyB 1 0 0 := by
  have hx : 1 < poolBV.sx := by norm_num [poolBV]
  have hy : 0 < poolBV.sy := by norm_num [poolBV]
  have hdd : 0 < poolBV.depth := by norm_num [poolBV]
  have hdep : poolB.out_depth = poolBV.depth := rfl
  have hlen : poolBV.w.length = poolBV.sx * poolBV.sy * poolBV.depth := rfl
  have hsw : ∀ n, n < poolB.out_depth * (poolB.out_sx).toNat * (poolB.out_sy).toNat →
      0 ≤ swxB.getD n (-1) ∧ swxB.getD n (-1) < (poolBV.sx : Int) ∧
      0 ≤ swyB.getD n (-1) ∧ swyB.getD n (-1) < (poolBV.sy : Int) := by
    intro n hn
    have hb : poolB.out_depth * (poolB.out_sx).toNat * (poolB.out_sy).toNat = 1 := by
      norm_num [poolB, PoolLayer.out_depth, PoolLayer.out_sx, PoolLayer.out_sy, poolOutDim]
    rw [hb] at hn
    have hn0 : n = 0 := by omega
    subst hn0
    norm_num [swxB, swyB, poolBV]
  exact ⟨⟨hx, hy, hdd, hdep, hlen, hsw⟩,
    pool_backward_routes poolB poolBV outDwB swxB swyB 1 0 0 hx hy hdd hdep hlen hsw⟩

/-! ## C4: output dimensions -/

/-- C4.  For every convolution and pooling layer configuration with
positive stride, the computed output dimension equals
floor((in_s + 2*pad - filter_s) / stride) + 1, and a non-dividing
configuration simply produces the truncated value (both definitions are
total: there is no error path). -/
theorem out_dim_formula (inS pad fS stride : Nat) (h : 0 < stride) :
    convOutDim inS pad fS stride =
      Int.floor (((inS : ℚ) + 2 * (pad : ℚ) - (fS : ℚ)) / (stride : ℚ)) + 1 ∧
    poolOutDim inS pad fS stride =
      Int.floor (((inS : ℚ) + 2 * (pad : ℚ) - (fS : ℚ)) / (stride : ℚ)) + 1 := by
  have key : Int.floor (((inS : ℚ) + (pad : ℚ) * 2 - (fS : ℚ)) / (stride : ℚ) + 1)
      = Int.floor (((inS : ℚ) + 2 * (pad : ℚ) - (fS : ℚ)) / (stride : ℚ)) + 1 := by
    rw [show ((inS : ℚ) + (pad : ℚ) * 2 - (fS : ℚ)) / (stride : ℚ)
        = ((inS : ℚ) + 2 * (pad : ℚ) - (fS : ℚ)) / (stride : ℚ) from by ring]
    exact Int.floor_add_one _
  exact ⟨key, key⟩

/-- Witness for C4 at the non-dividing configuration in_s = 5,
filter 2, stride 2, pad 0: the output is trimmed to 2 (the exact ratio
would be 2.5) and no error is raised. -/
theorem out_dim_formula_witness :
    (0 < 2) ∧
    (convOutDim 5 0 2 2 =
      Int.floor ((((5 : Nat) : ℚ) + 2 * ((0 : Nat) : ℚ) - ((2 : Nat) : ℚ)) / ((2 : Nat) : ℚ)) + 1 ∧
     poolOutDim 5 0 2 2 =
      Int.floor ((((5 : Nat) : ℚ) + 2 * ((0 : Nat) : ℚ) - ((2 : Nat) : ℚ)) / ((2 : Nat) : ℚ)) + 1) ∧
    convOutDim 5 0 2 2 = 2 ∧ poolOutDim 5 0 2 2 = 2 := by
  refine ⟨by norm_num, out_dim_formula 5 0 2 2 (by norm_num), ?_, ?_⟩
  · norm_num [convOutDim]
  · norm_num [poolOutDim]

/-! ## C9: tensor serialization round-trip -/

/-- C9.  Applying toJSON then fromJSON to a tensor satisfying the Vol
length invariant reproduces the same sx, sy, depth and the identical w
buffer, while the gradient buffer comes back as sx*sy*depth zeros (the
serialized record carries no gradient field at all). -/
theorem vol_json_roundtrip (V : Vol) (h : V.w.length = V.sx * V.sy * V.depth) :
    Vol.fromJSON (Vol.toJSON V) =
      ⟨V.sx, V.sy, V.depth, V.w, List.replicate (V.sx * V.sy * V.depth) 0⟩ := by
  have e : (List.range (V.sx * V.sy * V.depth)).map (fun i => V.w.getD i 0) = V.w := by
    rw [← h]
    apply List.ext_getElem (by simp)
    intro i h1 h2
    rw [List.getElem_map, List.getElem_range]
    exact List.getD_eq_getElem V.w 0 h2
  simp only [Vol.fromJSON, Vol.toJSON]
  rw [e]

/-- Witness for C9 on a concrete 1x1x2 tensor with nonzero gradients
before the round trip. -/
theorem vol_json_roundtrip_witness :
    volJ.w.length = volJ.sx * volJ.sy * volJ.depth ∧
    Vol.fromJSON (Vol.toJSON volJ) =
      ⟨volJ.sx, volJ.sy, volJ.depth, volJ.w,
        List.replicate (volJ.sx * volJ.sy * volJ.depth) 0⟩ := by
  have h : volJ.w.length = volJ.sx * volJ.sy * volJ.depth := rfl
  exact ⟨h, vol_json_roundtrip volJ h⟩

/-! ## C5 and C10: the decayed gradient of the trainer -/

theorem trainerWeightStep_p (sq : ℚ → ℚ) (cfg : TrainerCfg) (l1d l2d : ℚ)
    (st : WeightState) (j : Nat) (hj : j < st.p.length) :
    (trainerWeightStep sq cfg l1d l2d st j).p.getD j 0 =
      (specUpdateRule sq cfg (st.p.getD j 0) (st.gsum.getD j 0) (st.xsum.getD j 0)
        ((l2d * st.p.getD j 0 + l1d * (if st.p.getD j 0 > 0 then 1 else -1) +
          st.g.getD j 0) / (cfg.batch_size : ℚ))).1 := by
  simp only [trainerWeightStep, specUpdateRule]
  split_ifs <;> rw [getD_set_self _ _ _ hj]

/-- C5 as amended.  For every update rule, every parameter group and
every weight p with raw gradient g, the update applied to p by the code
is the specification update rule evaluated at the decayed gradient
(l2_decay*p + l1_decay*s + g) / batch_size, where l2_decay and l1_decay
are the trainer rates scaled by the group multipliers and s is 1 when
p is strictly positive and -1 otherwise; in particular at p = 0 the L1
term contributes -l1_decay, not zero. -/
theorem trainer_decayed_gradient (sq : ℚ → ℚ) (cfg : TrainerCfg) (l1dm l2dm : ℚ)
    (st : WeightState) (j : Nat) (hj : j < st.p.length) :
    (trainerWeightStep sq cfg (cfg.l1_decay * l1dm) (cfg.l2_decay * l2dm) st j).p.getD j 0 =
      (specUpdateRule sq cfg (st.p.getD j 0) (st.gsum.getD j 0) (st.xsum.getD j 0)
        ((cfg.l2_decay * l2dm * st.p.getD j 0 +
          cfg.l1_decay * l1dm * (if st.p.getD j 0 > 0 then 1 else -1) +
          st.g.getD j 0) / (cfg.batch_size : ℚ))).1 :=
  trainerWeightStep_p sq cfg (cfg.l1_decay * l1dm) (cfg.l2_decay * l2dm) st j hj

/-- Counterexample for C5 as frozen: with the mathematical sign
function (sign(0) = 0), l1_decay = 1, l2_decay = 0, batch size 1,
learning rate 1/10 and a weight p = 0 with raw gradient 0, the claimed
decayed gradient is 0, so the claimed update leaves p at 0 — but the
code computes l1grad = l1_decay * (p greater than 0 yielding 1,
otherwise -1) = -1 and moves p to 1/10. -/
theorem trainer_decayed_gradient_counterexample :
    (trainerWeightStep (fun q => q) cfgC5 (cfgC5.l1_decay * 1) (cfgC5.l2_decay * 1)
        stC5 0).p.getD 0 0 ≠
      (specUpdateRule (fun q => q) cfgC5 (stC5.p.getD 0 0) (stC5.gsum.getD 0 0)
        (stC5.xsum.getD 0 0)
        (specDecayedGrad (cfgC5.l1_decay * 1) (cfgC5.l2_decay * 1) cfgC5.batch_size
          (stC5.p.getD 0 0) (stC5.g.getD 0 0))).1 := by
  have e1 : ¬ (("sgd" : String) = "adagrad") := by decide
  have e2 : ¬ (("sgd" : String) = "windowgrad") := by decide
  have e3 : ¬ (("sgd" : String) = "adadelta") := by decide
  have e4 : ¬ (("sgd" : String) = "nesterov") := by decide
  norm_num [trainerWeightStep, specUpdateRule, specDecayedGrad, specSign, cfgC5, stC5,
    e1, e2, e3, e4]

/-- Witness for the amended C5 on the same concrete input, with the
abstract square root instantiated by the identity. -/
theorem trainer_decayed_gradient_witness :
    (0 < stC5.p.length) ∧
    (trainerWeightStep (fun q => q) cfgC5 (cfgC5.l1_decay * 1) (cfgC5.l2_decay * 1)
        stC5 0).p.getD 0 0 =
      (specUpdateRule (fun q => q) cfgC5 (stC5.p.getD 0 0) (stC5.gsum.getD 0 0)
        (stC5.xsum.getD 0 0)
        ((cfgC5.l2_decay * 1 * stC5.p.getD 0 0 +
          cfgC5.l1_decay * 1 * (if stC5.p.getD 0 0 > 0 then 1 else -1) +
          stC5.g.getD 0 0) / (cfgC5.batch_size : ℚ))).1 := by
  have hj : 0 < stC5.p.length := by norm_num [stC5]
  exact ⟨hj, trainer_decayed_gradient (fun q => q) cfgC5 1 1 stC5 0 hj⟩

/-- C10.  Convolution and fully-connected layers both report the bias
group as the last parameter group, with l1_decay_mul and l2_decay_mul
fixed to 0.0 whatever the layer multipliers are; and a weight whose
effective decay rates are rate * 0 is updated by every rule exactly as
if only the raw gradient divided by the batch size were applied — bias
parameters never receive L1 or L2 weight decay. -/
theorem bias_group_no_decay (L : ConvLayer) (F : FullyConnLayer) :
    (L.getParamsAndGrads).getLast? = some ⟨L.biases.w, L.biases.dw, some 0, some 0⟩ ∧
    (F.getParamsAndGrads).getLast? = some ⟨F.biases.w, F.biases.dw, some 0, some 0⟩ ∧
    (∀ (sq : ℚ → ℚ) (cfg : TrainerCfg) (st : WeightState) (j : Nat), j < st.p.length →
      (trainerWeightStep sq cfg (cfg.l1_decay * ((some (0 : ℚ)).getD 1))
          (cfg.l2_decay * ((some (0 : ℚ)).getD 1)) st j).p.getD j 0 =
        (specUpdateRule sq cfg (st.p.getD j 0) (st.gsum.getD j 0) (st.xsum.getD j 0)
          ((st.g.getD j 0) / (cfg.batch_size : ℚ))).1) := by
  refine ⟨?_, ?_, ?_⟩
  · unfold ConvLayer.getParamsAndGrads
    exact List.getLast?_concat _
  · unfold FullyConnLayer.getParamsAndGrads
    exact List.getLast?_concat _
  · intro sq cfg st j hj
    rw [trainerWeightStep_p sq cfg _ _ st j hj]
    have e : (cfg.l2_decay * ((some (0 : ℚ)).getD 1) * st.p.getD j 0 +
        cfg.l1_decay * ((some (0 : ℚ)).getD 1) *
          (if st.p.getD j 0 > 0 then 1 else -1) +
        st.g.getD j 0) / (cfg.batch_size : ℚ)
        = (st.g.getD j 0) / (cfg.batch_size : ℚ) := by
      simp
    rw [e]

/-- Witness for C10 at concrete convolution and fully-connected
layers. -/
theorem bias_group_no_decay_witness :
    (convW.getParamsAndGrads).getLast? =
      some ⟨convW.biases.w, convW.biases.dw, some 0, some 0⟩ ∧
    (fcW.getParamsAndGrads).getLast? =
      some ⟨fcW.biases.w, fcW.biases.dw, some 0, some 0⟩ ∧
    (∀ (sq : ℚ → ℚ) (cfg : TrainerCfg) (st : WeightState) (j : Nat), j < st.p.length →
      (trainerWeightStep sq cfg (cfg.l1_decay * ((some (0 : ℚ)).getD 1))
          (cfg.l2_decay * ((some (0 : ℚ)).getD 1)) st j).p.getD j 0 =
        (specUpdateRule sq cfg (st.p.getD j 0) (st.gsum.getD j 0) (st.xsum.getD j 0)
          ((st.g.getD j 0) / (cfg.batch_size : ℚ))).1) :=
  bias_group_no_decay convW fcW

/-! ## C7: no update between batch boundaries -/

/-- C7.  Trainer.train frame property: when the incremented step
counter is not a multiple of batch_size, the returned state carries the
same gsum and xsum, the parameter groups are returned untouched, and
both decay losses are zero (the tuple components after the groups are
l2_decay_loss then l1_decay_loss). -/
theorem trainer_skips_between_batches (sq : ℚ → ℚ) (T : TrainerState)
    (pglist : List ParamGroup) (h : (T.k + 1) % T.cfg.batch_size ≠ 0) :
    trainerTrainStep sq T pglist = (⟨T.cfg, T.k + 1, T.gsum, T.xsum⟩, pglist, 0, 0) := by
  unfold trainerTrainStep
  rw [if_neg h]

/-- Witness for C7: batch size 2 at counter 0, so the incremented
counter 1 is not a batch boundary. -/
theorem trainer_skips_between_batches_witness :
    ((tsC7.k + 1) % tsC7.cfg.batch_size ≠ 0) ∧
    trainerTrainStep (fun q => q) tsC7 pgC7 =
      (⟨tsC7.cfg, tsC7.k + 1, tsC7.gsum, tsC7.xsum⟩, pgC7, 0, 0) := by
  have h : (tsC7.k + 1) % tsC7.cfg.batch_size ≠ 0 := by norm_num [tsC7, cfgC7]
  exact ⟨h, trainer_skips_between_batches (fun q => q) tsC7 pgC7 h⟩

/-! ## C6: makeLayers validation -/

theorem constructLoop_stuck (d : LayerDef) (t : List LayerDef) (i : Nat)
    (ls log : List String) (h0 : 0 < i) (h : ls.length < i) :
    ∃ e, constructLoop (d :: t) i ls log = Except.error e := by
  refine ⟨"TypeError: Cannot read properties of undefined (reading out_sx)", ?_⟩
  unfold constructLoop
  rw [if_pos ⟨h0, by omega⟩]

theorem constructLoop_error_iff (rest : List LayerDef) (i : Nat)
    (ls log : List String) (hsync : ls.length = i) :
    (∃ e, constructLoop rest i ls log = Except.error e) ↔
      (∃ j, j + 1 < rest.length ∧ ((rest.getD j default).type ∉ recognizedTypes)) := by
  induction rest generalizing i ls log with
  | nil =>
    constructor
    · rintro ⟨e, he⟩
      exact Except.noConfusion he
    · rintro ⟨j, hj, _⟩
      simp at hj
  | cons d t ih =>
    unfold constructLoop
    rw [if_neg (by omega : ¬ (0 < i ∧ ¬ (i - 1 < ls.length)))]
    by_cases hrec : d.type ∈ recognizedTypes
    · rw [if_pos hrec]
      rw [ih (i + 1) (ls ++ [d.type]) log (by simp [hsync])]
      constructor
      · rintro ⟨j, hj, hu⟩
        refine ⟨j + 1, ?_, by simpa using hu⟩
        simp only [List.length_cons]
        omega
      · rintro ⟨j, hj, hu⟩
        cases j with
        | zero =>
          simp only [List.getD_cons_zero] at hu
          exact absurd hrec hu
        | succ j2 =>
          refine ⟨j2, ?_, by simpa using hu⟩
          simp only [List.length_cons] at hj
          omega
    · rw [if_neg hrec]
      cases t with
      | nil =>
        constructor
        · rintro ⟨e, he⟩
          exact Except.noConfusion he
        · rintro ⟨j, hj, _⟩
          simp only [List.length_cons, List.length_nil] at hj
          omega
      | cons d2 t2 =>
        constructor
        · intro _
          refine ⟨0, ?_, by simpa using hrec⟩
          simp only [List.length_cons]
          omega
        · intro _
          exact constructLoop_stuck d2 t2 (i + 1) ls _ (by omega) (by omega)

/-- C6 as amended.  Net.makeLayers aborts construction with a fatal
error exactly when fewer than two layer definitions are given, when the
first definition is not of type input (the two asserts), or when the
desugared definitions hold an unrecognized layer type tag in any
position other than the last: the skipped construction leaves the
layers list short and the next iteration reads the missing previous
layer for shape wiring and throws a TypeError.  An unsupported
activation value only logs a console error and construction completes,
as does an unrecognized tag in final position (the network is built
without that layer). -/
theorem makeLayers_error_iff (defs : List LayerDef) :
    (∃ e, makeLayers defs = Except.error e) ↔
      (defs.length < 2 ∨ (defs.getD 0 default).type ≠ "input" ∨
        (∃ j, j + 1 < (desugar defs).1.length ∧
          ((desugar defs).1.getD j default).type ∉ recognizedTypes)) := by
  unfold makeLayers
  by_cases h1 : defs.length ≥ 2
  · by_cases h2 : (defs.getD 0 default).type = "input"
    · rw [if_neg (not_not_intro h1), if_neg (not_not_intro h2)]
      have hcl := constructLoop_error_iff (desugar defs).1 0 [] [] rfl
      constructor
      · rintro ⟨e, he⟩
        refine Or.inr (Or.inr (hcl.mp ?_))
        rcases hres : constructLayers (desugar defs).1 with e2 | r
        · exact ⟨e2, hres⟩
        · rw [hres] at he
          simp at he
      · intro h
        rcases h with h | h | h
        · omega
        · exact absurd h2 h
        · obtain ⟨e, he⟩ := hcl.mpr h
          have hres : constructLayers (desugar defs).1 = Except.error e := he
          rw [hres]
          exact ⟨e, rfl⟩
    · rw [if_neg (not_not_intro h1), if_pos h2]
      constructor
      · intro _
        exact Or.inr (Or.inl h2)
      · intro _
        exact ⟨_, rfl⟩
  · rw [if_pos h1]
    constructor
    · intro _
      exact Or.inl (by omega)
    · intro _
      exact ⟨_, rfl⟩

/-- Counterexample for C6 as frozen: with an unsupported activation
value, and likewise with an unrecognized layer type tag in final
position, makeLayers does not abort — it returns a successfully built,
nonempty network (the error is only logged). -/
theorem makeLayers_continues_counterexample :
    (∃ r, makeLayers defsBadAct = Except.ok r ∧ r.1 ≠ []) ∧
    (∃ r, makeLayers defsBadType = Except.ok r ∧ r.1 ≠ []) := by
  constructor
  · exact ⟨(["input", "fc"], ["ERROR unsupported activation bogus"]), by rfl, by simp⟩
  · exact ⟨(["input"], ["ERROR: UNRECOGNIZED LAYER TYPE: bogus"]), by rfl, by simp⟩

/-- Witness for the amended C6: an unrecognized tag followed by a
further definition aborts construction with the TypeError (the
desugared list is [input, bogus, fc, softmax] with bogus at index 1),
while the unsupported-activation input does not abort at all. -/
theorem makeLayers_error_iff_witness :
    (∃ e, makeLayers defsBadTypeMid = Except.error e) ∧
    ¬ (∃ e, makeLayers defsBadAct = Except.error e) := by
  constructor
  · apply (makeLayers_error_iff defsBadTypeMid).mpr
    refine Or.inr (Or.inr ⟨1, ?_, ?_⟩)
    · decide
    · decide
  · intro hcontra
    have h3 := (makeLayers_error_iff defsBadAct).mp hcontra
    rcases h3 with h | h | h
    · exact absurd h (by decide)
    · exact absurd rfl h
    · obtain ⟨j, hj, hu⟩ := h
      have hl : (desugar defsBadAct).1.length = 2 := by rfl
      rw [hl] at hj
      have hj0 : j = 0 := by omega
      subst hj0
      exact hu (by decide)

/-! ## C8: getPrediction -/

theorem predScan_spec (w : List ℚ) (m : Nat) :
    (fun r : ℚ × Nat =>
      r.1 = w.getD r.2 0 ∧ r.2 < m + 1 ∧
      (∀ i, i < m + 1 → w.getD i 0 ≤ r.1) ∧
      (∀ i, i < r.2 → w.getD i 0 < r.1))
    (((List.range m).map (fun k => 1 + k)).foldl
      (fun (s : ℚ × Nat) (i : Nat) =>
        if w.getD i 0 > s.1 then (w.getD i 0, i) else s)
      (w.getD 0 0, 0)) := by
  induction m with
  | zero =>
    exact ⟨rfl, Nat.zero_lt_one,
      fun i hi => by
        have hi0 : i = 0 := by omega
        subst hi0
        exact le_refl _,
      fun i hi => absurd hi (Nat.not_lt_zero i)⟩
  | succ m ih =>
    rw [List.range_succ, List.map_append, List.foldl_append]
    simp only [List.map_cons, List.map_nil, List.foldl_cons, List.foldl_nil]
    rw [Nat.add_comm 1 m]
    obtain ⟨ih1, ih2, ih3, ih4⟩ := ih
    by_cases hc : w.getD (m + 1) 0 >
        (((List.range m).map (fun k => 1 + k)).foldl
          (fun (s : ℚ × Nat) (i : Nat) =>
            if w.getD i 0 > s.1 then (w.getD i 0, i) else s)
          (w.getD 0 0, 0)).1
    · rw [if_pos hc]
      refine ⟨rfl, by omega, ?_, ?_⟩
      · intro i hi
        by_cases him : i < m + 1
        · exact le_of_lt (lt_of_le_of_lt (ih3 i him) hc)
        · have hieq : i = m + 1 := by omega
          subst hieq
          exact le_refl _
      · intro i hi
        exact lt_of_le_of_lt (ih3 i hi) hc
    · rw [if_neg hc]
      push_neg at hc
      refine ⟨ih1, by omega, ?_, ih4⟩
      intro i hi
      by_cases him : i < m + 1
      · exact ih3 i him
      · have hieq : i = m + 1 := by omega
        subst hieq
        exact hc

/-- C8.  getPrediction fails with the assertion error when the last
layer is not softmax-typed; when it is softmax-typed (and its output is
nonempty) it returns the index of the maximal output activation, the
first index winning ties. -/
theorem getPrediction_spec (layers : List NetLayer) (hne : layers ≠ []) :
    ((layers.getD (layers.length - 1) default).layer_type ≠ "softmax" →
      ∃ e, getPrediction layers = Except.error e) ∧
    ((layers.getD (layers.length - 1) default).layer_type = "softmax" →
      (layers.getD (layers.length - 1) default).out_act.w ≠ [] →
      PredictionSpec layers) := by
  constructor
  · intro h
    unfold getPrediction
    rw [if_neg h]
    exact ⟨_, rfl⟩
  · intro hsm hw
    simp only [PredictionSpec, getPrediction]
    rw [if_pos hsm]
    obtain ⟨m, hm⟩ : ∃ m,
        (layers.getD (layers.length - 1) default).out_act.w.length = m + 1 :=
      ⟨(layers.getD (layers.length - 1) default).out_act.w.length - 1,
        by have := List.length_pos.mpr hw; omega⟩
    obtain ⟨h1, h2, h3, h4⟩ :=
      predScan_spec (layers.getD (layers.length - 1) default).out_act.w m
    rw [List.range'_eq_map_range, hm, Nat.add_sub_cancel]
    refine ⟨_, rfl, ?_, ?_, ?_⟩
    · omega
    · intro j hj
      rw [← h1]
      exact h3 j (by omega)
    · intro j hj
      rw [← h1]
      exact h4 j hj

/-- Witness for C8 on a one-layer softmax network with activations
1, 3, 2: the prediction facts hold at the returned index. -/
theorem getPrediction_spec_witness :
    (netW ≠ [] ∧ (netW.getD (netW.length - 1) default).layer_type = "softmax" ∧
      (netW.getD (netW.length - 1) default).out_act.w ≠ []) ∧
    PredictionSpec netW := by
  have h1 : netW ≠ [] := by simp [netW]
  have h2 : (netW.getD (netW.length - 1) default).layer_type = "softmax" := rfl
  have h3 : (netW.getD (netW.length - 1) default).out_act.w ≠ [] := by simp [netW]
  exact ⟨⟨h1, h2, h3⟩, (getPrediction_spec netW h1).2 h2 h3⟩

end Convnet
